import Mathlib

/-!
Verification of the KhepriEngine packaging scripts.

This file gives a shallow embedding of the logic in `conanfile.py`
(version resolution from git metadata, version-string parsing, toolchain
variable propagation, build/package step sequencing) and in
`cmake/ConvertBlender/ExportCollada.py` (command-line handling of the
Blender Collada export utility), together with theorems about the
embedded definitions.

Python's `re.match` anchors a regular expression at the start of the
string only: a match of a proper *initial segment* of the string succeeds.
The patterns used by the scripts contain `\d+` and `[a-fA-F0-9]+`
(greedy, with backtracking), unescaped `.` (which matches any character
except a newline) and the optional groups `v?` and `(\.dirty)?`.  The
matcher below implements exactly this leftmost-greedy backtracking
semantics, specialised to the two patterns that occur in the source.
-/

namespace Khepri

/-- The character class `\d` of the patterns (ASCII decimal digits). -/
def isPyDigit (c : Char) : Bool := c.isDigit

/-- The character class `[a-fA-F0-9]` of the version pattern. -/
def isPyHex (c : Char) : Bool :=
  c.isDigit || (decide ('a' ≤ c) && decide (c ≤ 'f')) || (decide ('A' ≤ c) && decide (c ≤ 'F'))

/-- An unescaped `.` in a Python pattern matches any character except `\n`. -/
def isReAny (c : Char) : Bool := c != '\n'

/-- Length of the longest prefix of `s` whose characters all satisfy `p`. -/
def leadCount (p : Char → Bool) : List Char → Nat
  | [] => 0
  | c :: cs => if p c then leadCount p cs + 1 else 0

/-- The splits `(s.take j, s.drop j)` for `j = k, k-1, ..., 1`, in that
order: the candidate ways a greedy `p+` can consume a prefix of `s`,
longest first, as Python's backtracking tries them. -/
def splitsDown (s : List Char) : Nat → List (List Char × List Char)
  | 0 => []
  | k + 1 => (s.take (k + 1), s.drop (k + 1)) :: splitsDown s k

/-- All candidate ways the greedy `p+` matches a nonempty prefix of `s`,
in the order Python's backtracking tries them (longest first). -/
def plusSplits (p : Char → Bool) (s : List Char) : List (List Char × List Char) :=
  splitsDown s (leadCount p s)

/-- `int()` applied to a string of ASCII decimal digits. -/
def digitsToNat (l : List Char) : Nat :=
  l.foldl (fun n c => 10 * n + (c.toNat - '0'.toNat)) 0

/-- The record built by `_parse_version` in `conanfile.py` on a successful
match: the dict with keys `major`, `minor`, `patch`, `commit`, `clean`. -/
structure VersionInfo where
  major : Nat
  minor : Nat
  patch : Nat
  commit : String
  clean : Bool
deriving DecidableEq, Repr

/-- The characters of the literal `.dirty` suffix. -/
def dirtyChars : List Char := ['.', 'd', 'i', 'r', 't', 'y']

/-- Matches `\+([a-fA-F0-9]+)(\.dirty)?` against a prefix of `s`,
returning group 4 (the hex characters) and the value of the `clean`
field, namely whether group 5 (the `.dirty` group) did *not* match.
The optional group never fails, so the greedy hex run is never given
back. -/
def matchHexTail (s : List Char) : Option (List Char × Bool) :=
  match s with
  | '+' :: rest =>
    (plusSplits isPyHex rest).findSome? fun hr =>
      some (hr.1, !(List.isPrefixOf dirtyChars hr.2))
  | _ => none

/-- Matches `(\d+).(\d+).(\d+)\+([a-fA-F0-9]+)(\.dirty)?` against a
prefix of `s` with Python's leftmost-greedy backtracking, building the
dict of `_parse_version`.  The `.` separators are the unescaped dots of
the source pattern, so they match any non-newline character. -/
def matchVersionCore (s : List Char) : Option VersionInfo :=
  (plusSplits isPyDigit s).findSome? fun p1 =>
    match p1.2 with
    | c1 :: r1 =>
      if isReAny c1 then
        (plusSplits isPyDigit r1).findSome? fun p2 =>
          match p2.2 with
          | c2 :: r2 =>
            if isReAny c2 then
              (plusSplits isPyDigit r2).findSome? fun p3 =>
                (matchHexTail p3.2).map fun ht =>
                  { major := digitsToNat p1.1
                    minor := digitsToNat p2.1
                    patch := digitsToNat p3.1
                    commit := String.mk ht.1
                    clean := ht.2 }
            else none
          | [] => none
      else none
    | [] => none

/-- `KhepriEngineConan._parse_version`: match the version string against
`(\d+).(\d+).(\d+)\+([a-fA-F0-9]+)(\.dirty)?` via `re.match` and return
the structured record on success, `None` otherwise. -/
def _parse_version (version : String) : Option VersionInfo :=
  matchVersionCore version.toList

example : _parse_version "1.2.3+ab" =
    some { major := 1, minor := 2, patch := 3, commit := "ab", clean := true } := by decide

example : _parse_version "10.20.30+deadBEEF99.dirty" =
    some { major := 10, minor := 20, patch := 30, commit := "deadBEEF99", clean := false } := by
  decide

example : _parse_version "1.2.3" = none := by decide

example : _parse_version "1x2y3+ab" =
    some { major := 1, minor := 2, patch := 3, commit := "ab", clean := true } := by decide

example : _parse_version "1.2.3+abZZZ" =
    some { major := 1, minor := 2, patch := 3, commit := "ab", clean := true } := by decide

example : _parse_version "1.2.3.4+ab" = none := by decide

example : _parse_version "1.2.34+ab" =
    some { major := 1, minor := 2, patch := 34, commit := "ab", clean := true } := by decide

/-! ### Greedy matching lemmas -/

theorem leadCount_append (p : Char → Bool) (xs ys : List Char)
    (hxs : ∀ c ∈ xs, p c = true) (hys : ∀ c, ys.head? = some c → p c = false) :
    leadCount p (xs ++ ys) = xs.length := by
  induction xs with
  | nil =>
    cases ys with
    | nil => rfl
    | cons a as => simp [leadCount, hys a rfl]
  | cons a as ih =>
    have ha : p a = true := hxs a (by simp)
    have hstep : leadCount p ((a :: as) ++ ys) = leadCount p (as ++ ys) + 1 := by
      simp [leadCount, ha]
    rw [hstep, ih (fun c hc => hxs c (by simp [hc]))]
    simp

theorem plusSplits_head (p : Char → Bool) (xs ys : List Char) (hne : xs ≠ [])
    (hxs : ∀ c ∈ xs, p c = true) (hys : ∀ c, ys.head? = some c → p c = false) :
    ∃ k, plusSplits p (xs ++ ys) = (xs, ys) :: splitsDown (xs ++ ys) k := by
  obtain ⟨a, as, rfl⟩ := List.exists_cons_of_ne_nil hne
  refine ⟨as.length, ?_⟩
  have hlc : leadCount p ((a :: as) ++ ys) = as.length + 1 := by
    rw [leadCount_append p _ _ hxs hys]; simp
  rw [plusSplits, hlc, splitsDown]
  have hlen : as.length + 1 = (a :: as).length := by simp
  rw [hlen, List.take_left, List.drop_left]

/-- When the greedy-first candidate split `(xs, ys)` of a `p+` match
succeeds, the backtracking search returns its value. -/
theorem findSome?_plusSplits {β : Type} (p : Char → Bool)
    (f : List Char × List Char → Option β) (xs ys : List Char) (b : β) (hne : xs ≠ [])
    (hxs : ∀ c ∈ xs, p c = true) (hys : ∀ c, ys.head? = some c → p c = false)
    (hf : f (xs, ys) = some b) :
    (plusSplits p (xs ++ ys)).findSome? f = some b := by
  obtain ⟨k, hps⟩ := plusSplits_head p xs ys hne hxs hys
  rw [hps, List.findSome?_cons, hf]

theorem matchHexTail_wellformed (h : List Char) (dirty : Bool)
    (hne : h ≠ []) (hhex : ∀ c ∈ h, isPyHex c = true) :
    matchHexTail ('+' :: (h ++ (if dirty then dirtyChars else []))) = some (h, !dirty) := by
  show (plusSplits isPyHex (h ++ (if dirty then dirtyChars else []))).findSome?
      (fun hr => some (hr.1, !(List.isPrefixOf dirtyChars hr.2))) = some (h, !dirty)
  refine findSome?_plusSplits isPyHex _ h _ _ hne hhex ?_ ?_
  · intro c hc
    cases dirty <;> simp [dirtyChars] at hc
    subst hc; decide
  · cases dirty <;> simp [dirtyChars]

theorem matchVersionCore_wellformed (d1 d2 d3 hx : List Char) (dirty : Bool)
    (h1 : d1 ≠ []) (hd1 : ∀ c ∈ d1, isPyDigit c = true)
    (h2 : d2 ≠ []) (hd2 : ∀ c ∈ d2, isPyDigit c = true)
    (h3 : d3 ≠ []) (hd3 : ∀ c ∈ d3, isPyDigit c = true)
    (hh : hx ≠ []) (hhx : ∀ c ∈ hx, isPyHex c = true) :
    matchVersionCore
        (d1 ++ '.' :: (d2 ++ '.' :: (d3 ++ '+' :: (hx ++ (if dirty then dirtyChars else []))))) =
      some { major := digitsToNat d1, minor := digitsToNat d2, patch := digitsToNat d3,
             commit := String.mk hx, clean := !dirty } := by
  unfold matchVersionCore
  refine findSome?_plusSplits isPyDigit _ d1 _ _ h1 hd1 ?_ ?_
  · intro c hc
    rw [List.head?_cons] at hc
    injection hc with hc; subst hc; decide
  show (plusSplits isPyDigit (d2 ++ '.' :: (d3 ++ '+' :: (hx ++ _)))).findSome? _ = some _
  refine findSome?_plusSplits isPyDigit _ d2 _ _ h2 hd2 ?_ ?_
  · intro c hc
    rw [List.head?_cons] at hc
    injection hc with hc; subst hc; decide
  show (plusSplits isPyDigit (d3 ++ '+' :: (hx ++ _))).findSome? _ = some _
  refine findSome?_plusSplits isPyDigit _ d3 _ _ h3 hd3 ?_ ?_
  · intro c hc
    rw [List.head?_cons] at hc
    injection hc with hc; subst hc; decide
  show (matchHexTail ('+' :: (hx ++ _))).map _ = some _
  rw [matchHexTail_wellformed hx dirty hh hhx]
  rfl

/-! ### Soundness of the matcher: any successful match yields a structural
decomposition of a prefix of the input. -/

theorem mem_splitsDown {s : List Char} {k : Nat} {ab : List Char × List Char}
    (h : ab ∈ splitsDown s k) : ∃ j, 1 ≤ j ∧ j ≤ k ∧ ab = (s.take j, s.drop j) := by
  induction k with
  | zero => cases h
  | succ k ih =>
    rw [splitsDown] at h
    rcases List.mem_cons.mp h with h | h
    · exact ⟨k + 1, Nat.succ_le_succ (Nat.zero_le k), Nat.le_refl _, h⟩
    · obtain ⟨j, hj1, hjk, hab⟩ := ih h
      exact ⟨j, hj1, Nat.le_succ_of_le hjk, hab⟩

theorem take_leadCount_all (p : Char → Bool) (s : List Char) (j : Nat)
    (hj : j ≤ leadCount p s) : ∀ c ∈ s.take j, p c = true := by
  induction s generalizing j with
  | nil => simp
  | cons a as ih =>
    cases j with
    | zero => simp
    | succ j =>
      rw [leadCount] at hj
      by_cases hpa : p a = true
      · rw [if_pos hpa] at hj
        intro c hc
        rw [List.take_succ_cons] at hc
        rcases List.mem_cons.mp hc with rfl | hc
        · exact hpa
        · exact ih j (Nat.le_of_succ_le_succ hj) c hc
      · rw [if_neg hpa] at hj
        exact absurd hj (by omega)

theorem leadCount_le_length (p : Char → Bool) (s : List Char) :
    leadCount p s ≤ s.length := by
  induction s with
  | nil => exact Nat.le_refl 0
  | cons a as ih =>
    rw [leadCount]
    by_cases hpa : p a = true
    · rw [if_pos hpa]; simpa using ih
    · rw [if_neg hpa]; simp

theorem plusSplits_sound {p : Char → Bool} {s : List Char} {ab : List Char × List Char}
    (h : ab ∈ plusSplits p s) :
    s = ab.1 ++ ab.2 ∧ ab.1 ≠ [] ∧ ∀ c ∈ ab.1, p c = true := by
  obtain ⟨j, hj1, hjk, hab⟩ := mem_splitsDown h
  subst hab
  refine ⟨(List.take_append_drop j s).symm, ?_, take_leadCount_all p s j hjk⟩
  have hlen : 1 ≤ s.length := le_trans hj1 (le_trans hjk (leadCount_le_length p s))
  intro hnil
  have hlen2 := congrArg List.length hnil
  rw [List.length_take] at hlen2
  simp only [List.length_nil] at hlen2
  omega

theorem matchHexTail_sound {s : List Char} {hb : List Char × Bool}
    (h : matchHexTail s = some hb) :
    ∃ hx rest, s = '+' :: (hx ++ rest) ∧ hx ≠ [] ∧ ∀ c ∈ hx, isPyHex c = true := by
  unfold matchHexTail at h
  split at h
  · next rest =>
    obtain ⟨p, hmem, hp⟩ := List.exists_of_findSome?_eq_some h
    obtain ⟨hs, hne, hall⟩ := plusSplits_sound hmem
    exact ⟨p.1, p.2, by rw [hs], hne, hall⟩
  · exact absurd h (by simp)

/-- The input strings on which Python's `re.match` with the pattern of
`_parse_version` succeeds: some prefix of the string decomposes as a
nonempty digit run, any non-newline character, a nonempty digit run,
any non-newline character, a nonempty digit run, a literal `+`, and a
nonempty hex run (anything may follow).  This is the spec's pattern
`N.N.N+H[.dirty]` as Python actually interprets the source pattern:
the dots are unescaped (matching any non-newline character), and
`re.match` does not anchor the match at the end of the string. -/
def MatchStartVersion (s : List Char) : Prop :=
  ∃ d1 c1 d2 c2 d3 hx rest,
    s = d1 ++ c1 :: (d2 ++ c2 :: (d3 ++ '+' :: (hx ++ rest))) ∧
    d1 ≠ [] ∧ (∀ c ∈ d1, isPyDigit c = true) ∧ isReAny c1 = true ∧
    d2 ≠ [] ∧ (∀ c ∈ d2, isPyDigit c = true) ∧ isReAny c2 = true ∧
    d3 ≠ [] ∧ (∀ c ∈ d3, isPyDigit c = true) ∧
    hx ≠ [] ∧ (∀ c ∈ hx, isPyHex c = true)

theorem matchVersionCore_sound {s : List Char} {vi : VersionInfo}
    (h : matchVersionCore s = some vi) : MatchStartVersion s := by
  unfold matchVersionCore at h
  obtain ⟨p1, hmem1, hp1⟩ := List.exists_of_findSome?_eq_some h
  obtain ⟨hs1, hne1, hall1⟩ := plusSplits_sound hmem1
  split at hp1
  case h_2 => exact absurd hp1 (by simp)
  next c1 r1 hr1 =>
  split at hp1
  case isFalse => exact absurd hp1 (by simp)
  next hc1 =>
  obtain ⟨p2, hmem2, hp2⟩ := List.exists_of_findSome?_eq_some hp1
  obtain ⟨hs2, hne2, hall2⟩ := plusSplits_sound hmem2
  split at hp2
  case h_2 => exact absurd hp2 (by simp)
  next c2 r2 hr2 =>
  split at hp2
  case isFalse => exact absurd hp2 (by simp)
  next hc2 =>
  obtain ⟨p3, hmem3, hp3⟩ := List.exists_of_findSome?_eq_some hp2
  obtain ⟨hs3, hne3, hall3⟩ := plusSplits_sound hmem3
  simp only [Option.map_eq_some'] at hp3
  obtain ⟨ht, hht, -⟩ := hp3
  obtain ⟨hx, rest, htl, hhne, hhall⟩ := matchHexTail_sound hht
  refine ⟨p1.1, c1, p2.1, c2, p3.1, hx, rest, ?_, hne1, hall1, hc1,
    hne2, hall2, hc2, hne3, hall3, hhne, hhall⟩
  rw [hs1, hr1, hs2, hr2, hs3, htl]

/-- Exact-form checker for the spec's pattern `N.N.N+H[.dirty]` read
literally: three nonempty decimal-digit runs separated by literal dots,
a literal `+`, a nonempty hex run, and then either nothing or exactly
the literal suffix `.dirty`.  (Because a dot is neither a digit nor a
hex digit, taking the maximal runs here is equivalent to the existence
of any such decomposition.)  This definition follows the spec's words
and is compared against `_parse_version`, which implements what the
source code actually does. -/
def specVersionPattern (s : List Char) : Bool :=
  let d1 := s.takeWhile isPyDigit
  let r1 := s.dropWhile isPyDigit
  !d1.isEmpty &&
    match r1 with
    | '.' :: s2 =>
      let d2 := s2.takeWhile isPyDigit
      let r2 := s2.dropWhile isPyDigit
      !d2.isEmpty &&
        match r2 with
        | '.' :: s3 =>
          let d3 := s3.takeWhile isPyDigit
          let r3 := s3.dropWhile isPyDigit
          !d3.isEmpty &&
            match r3 with
            | '+' :: s4 =>
              let hx := s4.takeWhile isPyHex
              let r4 := s4.dropWhile isPyHex
              !hx.isEmpty && (r4.isEmpty || r4 == dirtyChars)
            | _ => false
        | _ => false
    | _ => false

example : specVersionPattern "1.2.3+ab".toList = true := by decide
example : specVersionPattern "1.2.3+ab.dirty".toList = true := by decide
example : specVersionPattern "1.2.3+abZZZ".toList = false := by decide

/-! ### Claims C1 and C2 -/

/-- C1: for every string of the form `N.N.N+H` or `N.N.N+H.dirty`
(`N` nonempty digit runs, `H` a nonempty hex-digit run), `_parse_version`
returns a record whose `major`, `minor` and `patch` fields are the
integer values of the three digit runs, whose `commit` field is the hex
run unchanged, and whose `clean` field is the negation of the presence
of the `.dirty` suffix. -/
theorem parse_version_wellformed (d1 d2 d3 hx : List Char) (dirty : Bool)
    (h1 : d1 ≠ []) (hd1 : ∀ c ∈ d1, isPyDigit c = true)
    (h2 : d2 ≠ []) (hd2 : ∀ c ∈ d2, isPyDigit c = true)
    (h3 : d3 ≠ []) (hd3 : ∀ c ∈ d3, isPyDigit c = true)
    (hh : hx ≠ []) (hhx : ∀ c ∈ hx, isPyHex c = true) :
    _parse_version (String.mk
        (d1 ++ '.' :: (d2 ++ '.' :: (d3 ++ '+' :: (hx ++ (if dirty then dirtyChars else [])))))) =
      some { major := digitsToNat d1, minor := digitsToNat d2, patch := digitsToNat d3,
             commit := String.mk hx, clean := !dirty } :=
  matchVersionCore_wellformed d1 d2 d3 hx dirty h1 hd1 h2 hd2 h3 hd3 hh hhx

/-- Witness for C1 at the concrete input `"1.2.3+Ab.dirty"`. -/
theorem parse_version_wellformed_witness :
    _parse_version "1.2.3+Ab.dirty" =
      some { major := 1, minor := 2, patch := 3, commit := "Ab", clean := false } := by
  have h := parse_version_wellformed ['1'] ['2'] ['3'] ['A', 'b'] true
    (by decide) (by decide) (by decide) (by decide)
    (by decide) (by decide) (by decide) (by decide)
  exact h

/-- C2 counterexample: `"1x2y3+abZZZ"` does not match the spec's pattern
`N.N.N+H[.dirty]` (its separators are not dots and it has trailing
garbage), yet `_parse_version` returns a record for it, because the dots
of the source pattern are unescaped and `re.match` only anchors at the
start of the string. -/
theorem parse_version_none_counterexample :
    specVersionPattern "1x2y3+abZZZ".toList = false ∧
      _parse_version "1x2y3+abZZZ" =
        some { major := 1, minor := 2, patch := 3, commit := "ab", clean := true } := by
  constructor <;> decide

/-- C2 (amended): `_parse_version` returns `None` for every string that
has no prefix matching the pattern as Python interprets it, i.e. no
prefix of the form digits, any non-newline character, digits, any
non-newline character, digits, `+`, hex digits. -/
theorem parse_version_none_of_no_match (s : String)
    (h : ¬ MatchStartVersion s.toList) : _parse_version s = none := by
  cases hm : _parse_version s with
  | none => rfl
  | some vi => exact absurd (matchVersionCore_sound hm) h

/-- Witness for the amended C2 at the concrete input `"abc"`. -/
theorem parse_version_none_of_no_match_witness : _parse_version "abc" = none := by
  apply parse_version_none_of_no_match
  rintro ⟨d1, c1, d2, c2, d3, hx, rest, hs, hne1, hall1, -⟩
  obtain ⟨b, bs, rfl⟩ := List.exists_cons_of_ne_nil hne1
  have hb : b = 'a' := by
    have hh := congrArg List.head? hs
    simpa using hh.symm
  subst hb
  exact absurd (hall1 'a' (by simp)) (by decide)

/-! ### `set_version`: version resolution from git metadata

The three git operations used by `set_version` — `git.run("describe
--tags --abbrev=0")`, `git.get_revision()` and `git.is_pristine()` —
are external calls that either return a value or raise an exception;
we model each as an `Except Unit` result.  The construction of the
`tools.Git` object itself happens *before* both `try` blocks, so an
exception there is modelled separately (`set_version_full`). -/

/-- The possible outcomes of the three git calls made by `set_version`. -/
structure GitOps where
  describeResult : Except Unit String
  revisionResult : Except Unit String
  pristineResult : Except Unit Bool

/-- The constant `GIT_SHORT_HASH_LENGH` of `set_version` (the source
spells it without the final `T`). -/
def GIT_SHORT_HASH_LENGH : Nat := 12

/-- The whitespace characters removed by Python's `str.strip()`
(ASCII range). -/
def isPyWS (c : Char) : Bool :=
  c == ' ' || c == '\t' || c == '\n' || c == '\r' || c == '\x0b' || c == '\x0c'

/-- Python's `str.strip()`: remove leading and trailing whitespace. -/
def pyStrip (s : List Char) : List Char :=
  ((s.dropWhile isPyWS).reverse.dropWhile isPyWS).reverse

/-- Matches `(\d+.\d+.\d+)` against a prefix of `s` with Python's
leftmost-greedy backtracking and returns the matched characters (the
dots of the source pattern are unescaped, so they match any non-newline
character). -/
def tagCore (s : List Char) : Option (List Char) :=
  (plusSplits isPyDigit s).findSome? fun p1 =>
    match p1.2 with
    | c1 :: r1 =>
      if isReAny c1 then
        (plusSplits isPyDigit r1).findSome? fun p2 =>
          match p2.2 with
          | c2 :: r2 =>
            if isReAny c2 then
              (plusSplits isPyDigit r2).findSome? fun p3 =>
                some (p1.1 ++ c1 :: (p2.1 ++ c2 :: p3.1))
            else none
          | [] => none
      else none
    | [] => none

/-- Matches `v?(\d+.\d+.\d+)` against a prefix of `s`, returning group 1:
the greedy `v?` first consumes a leading `v` and, if the rest of the
pattern then fails, backtracks to consuming nothing. -/
def tagGroup1 : List Char → Option (List Char)
  | [] => tagCore []
  | c :: rest =>
    if c = 'v' then
      match tagCore rest with
      | some g => some g
      | none => tagCore (c :: rest)
    else tagCore (c :: rest)

/-- The version adopted from the `git describe` outcome by the first
`try` block of `set_version`: `"0.0.0"` unless the call succeeds and the
stripped tag matches `v?(\d+.\d+.\d+)`, in which case group 1 of the
match. -/
def versionFromTag : Except Unit String → String
  | .error _ => "0.0.0"
  | .ok out =>
    match tagGroup1 (pyStrip out.toList) with
    | some g => String.mk g
    | none => "0.0.0"

/-- `KhepriEngineConan.set_version`, given the outcomes of the three git
calls: resolve the base version from the latest tag (falling back to
`"0.0.0"`), then best-effort append `+` and the revision truncated to
`GIT_SHORT_HASH_LENGH` characters, plus `.dirty` when the tree is not
pristine.  An exception from `is_pristine` is caught after the hash has
already been appended. -/
def set_version (g : GitOps) : String :=
  let base := versionFromTag g.describeResult
  match g.revisionResult with
  | .error _ => base
  | .ok rev =>
    let withHash := base ++ "+" ++ String.mk (rev.toList.take GIT_SHORT_HASH_LENGH)
    match g.pristineResult with
    | .error _ => withHash
    | .ok pristine => if pristine then withHash else withHash ++ ".dirty"

/-- `set_version` including the construction of the `tools.Git` object,
which happens before either `try` block: an exception there propagates
to the caller, and `self.version` is then never assigned. -/
def set_version_full (ctor : Except Unit GitOps) : Except Unit String :=
  match ctor with
  | .error u => .error u
  | .ok g => .ok (set_version g)

example : set_version ⟨.error (), .error (), .error ()⟩ = "0.0.0" := by decide
example : set_version ⟨.error (), .ok "abcdef0123456789", .ok true⟩ =
    "0.0.0+abcdef012345" := by decide
example : set_version ⟨.error (), .ok "abcdef0123456789", .ok false⟩ =
    "0.0.0+abcdef012345.dirty" := by decide
example : set_version ⟨.ok "v1.2.3", .error (), .error ()⟩ = "1.2.3" := by decide
example : set_version ⟨.ok " 1.2.3\n", .ok "ff00", .ok false⟩ = "1.2.3+ff00.dirty" := by decide
example : set_version ⟨.ok "not-a-version", .ok "ff00", .ok true⟩ = "0.0.0+ff00" := by decide
example : set_version ⟨.ok "v1.2.3-rc1", .error (), .error ()⟩ = "1.2.3" := by decide

theorem dropWhile_eq_self_of_all {p : Char → Bool} {s : List Char}
    (h : ∀ c ∈ s, p c = false) : s.dropWhile p = s := by
  cases s with
  | nil => rfl
  | cons a as => rw [List.dropWhile_cons, h a (by simp)]; simp

theorem pyStrip_eq_self {s : List Char} (h : ∀ c ∈ s, isPyWS c = false) :
    pyStrip s = s := by
  rw [pyStrip, dropWhile_eq_self_of_all h,
    dropWhile_eq_self_of_all (fun c hc => h c (List.mem_reverse.mp hc)), List.reverse_reverse]

theorem isPyWS_eq_false_of_digit {c : Char} (h : isPyDigit c = true) :
    isPyWS c = false := by
  cases hws : isPyWS c
  · rfl
  · exfalso
    unfold isPyWS at hws
    simp only [Bool.or_eq_true, beq_iff_eq] at hws
    rcases hws with ((((h1 | h1) | h1) | h1) | h1) | h1 <;> subst h1 <;>
      exact absurd h (by decide)

theorem tagCore_wellformed (d1 d2 d3 : List Char)
    (h1 : d1 ≠ []) (hd1 : ∀ c ∈ d1, isPyDigit c = true)
    (h2 : d2 ≠ []) (hd2 : ∀ c ∈ d2, isPyDigit c = true)
    (h3 : d3 ≠ []) (hd3 : ∀ c ∈ d3, isPyDigit c = true) :
    tagCore (d1 ++ '.' :: (d2 ++ '.' :: d3)) = some (d1 ++ '.' :: (d2 ++ '.' :: d3)) := by
  unfold tagCore
  refine findSome?_plusSplits isPyDigit _ d1 _ _ h1 hd1 ?_ ?_
  · intro c hc
    rw [List.head?_cons] at hc
    injection hc with hc; subst hc; decide
  show (plusSplits isPyDigit (d2 ++ '.' :: d3)).findSome? _ = some _
  refine findSome?_plusSplits isPyDigit _ d2 _ _ h2 hd2 ?_ ?_
  · intro c hc
    rw [List.head?_cons] at hc
    injection hc with hc; subst hc; decide
  show (plusSplits isPyDigit d3).findSome? _ = some _
  have hlast := findSome?_plusSplits isPyDigit
    (fun p3 => some (d1 ++ '.' :: (d2 ++ '.' :: p3.1))) d3 [] (d1 ++ '.' :: (d2 ++ '.' :: d3))
    h3 hd3 (fun c hc => by simp at hc) rfl
  rw [List.append_nil] at hlast
  exact hlast

/-! ### Claims C4, C5 and C8 -/

/-- C4: whenever the tag lookup raises or the tag does not match the
version pattern, the resulting version is the fixed placeholder
`"0.0.0"`, extended — when the revision lookup succeeds — with `+` and
the revision truncated to `GIT_SHORT_HASH_LENGH` characters, plus the
`.dirty` suffix exactly when the pristine check reports uncommitted
changes. -/
theorem set_version_fallback (g : GitOps)
    (h : g.describeResult = .error () ∨
      ∀ out, g.describeResult = Except.ok out → tagGroup1 (pyStrip out.toList) = none) :
    (g.revisionResult = .error () → set_version g = "0.0.0") ∧
    ∀ rev, g.revisionResult = Except.ok rev →
      (g.pristineResult = Except.ok false →
        set_version g =
          ("0.0.0" ++ "+" ++ String.mk (rev.toList.take GIT_SHORT_HASH_LENGH)) ++ ".dirty") ∧
      (g.pristineResult ≠ Except.ok false →
        set_version g = "0.0.0" ++ "+" ++ String.mk (rev.toList.take GIT_SHORT_HASH_LENGH)) := by
  have hbase : versionFromTag g.describeResult = "0.0.0" := by
    rcases h with h | h
    · rw [h]; rfl
    · cases hd : g.describeResult with
      | error u => rfl
      | ok out =>
        have hnone : tagGroup1 (pyStrip out.data) = none := h out hd
        simp [versionFromTag, hnone]
  constructor
  · intro hrev
    simp [set_version, hbase, hrev]
  · intro rev hrev
    constructor
    · intro hpris
      simp [set_version, hbase, hrev, hpris]
    · intro hnp
      cases hp : g.pristineResult with
      | error u => simp [set_version, hbase, hrev, hp]
      | ok b =>
        cases b with
        | false => exact absurd hp hnp
        | true => simp [set_version, hbase, hrev, hp]

/-- Witness for C4 at a tag that fails to match, a successful revision
lookup and a dirty working tree. -/
theorem set_version_fallback_witness :
    set_version ⟨Except.ok "garbage", Except.ok "abcdef0123456789", Except.ok false⟩ =
      ("0.0.0" ++ "+" ++
        String.mk ("abcdef0123456789".toList.take GIT_SHORT_HASH_LENGH)) ++ ".dirty" := by
  have h := (set_version_fallback
      ⟨Except.ok "garbage", Except.ok "abcdef0123456789", Except.ok false⟩
      (Or.inr (fun out hout => by injection hout with h2; subst h2; decide))).2
    "abcdef0123456789" rfl
  exact h.1 rfl

/-- C5 counterexample: the construction of the `tools.Git` object happens
before either `try` block of `set_version`, so an exception raised there
propagates to the caller and no version is assigned — `set_version` does
not complete normally for every behaviour of the underlying git
operations. -/
theorem set_version_ctor_raises :
    set_version_full (Except.error ()) = Except.error () := rfl

/-- C5 (amended): provided the construction of the git object completes,
`set_version` completes normally — for every outcome, raising included,
of the tag lookup, the revision lookup and the pristine check — and
leaves the version set to some string. -/
theorem set_version_total (g : GitOps) :
    ∃ s : String, set_version_full (Except.ok g) = Except.ok s :=
  ⟨set_version g, rfl⟩

/-- C8: an optional leading `v` on the latest tag is stripped: for every
tag of the form `v` followed by `N.N.N`, and for `N.N.N` alone (`N`
nonempty digit runs), the version adopted from the tag is the bare
`N.N.N` part, whose first character is a digit — never `v`. -/
theorem versionFromTag_strips_v (d1 d2 d3 : List Char) (v : Bool)
    (h1 : d1 ≠ []) (hd1 : ∀ c ∈ d1, isPyDigit c = true)
    (h2 : d2 ≠ []) (hd2 : ∀ c ∈ d2, isPyDigit c = true)
    (h3 : d3 ≠ []) (hd3 : ∀ c ∈ d3, isPyDigit c = true) :
    versionFromTag (Except.ok (String.mk
        ((if v then ['v'] else []) ++ (d1 ++ '.' :: (d2 ++ '.' :: d3))))) =
      String.mk (d1 ++ '.' :: (d2 ++ '.' :: d3)) ∧
    (String.mk (d1 ++ '.' :: (d2 ++ '.' :: d3))).toList.head? ≠ some 'v' := by
  obtain ⟨a, as, rfl⟩ := List.exists_cons_of_ne_nil h1
  have hadig : isPyDigit a = true := hd1 a (by simp)
  have hav : a ≠ 'v' := by
    intro hv; subst hv; exact absurd hadig (by decide)
  have hbody : ∀ c ∈ (a :: as) ++ '.' :: (d2 ++ '.' :: d3), isPyWS c = false := by
    intro c hc
    rcases List.mem_append.mp hc with hc | hc
    · exact isPyWS_eq_false_of_digit (hd1 c hc)
    · rcases List.mem_cons.mp hc with rfl | hc
      · decide
      · rcases List.mem_append.mp hc with hc | hc
        · exact isPyWS_eq_false_of_digit (hd2 c hc)
        · rcases List.mem_cons.mp hc with rfl | hc
          · decide
          · exact isPyWS_eq_false_of_digit (hd3 c hc)
  have hcore := tagCore_wellformed (a :: as) d2 d3 h1 hd1 h2 hd2 h3 hd3
  refine ⟨?_, ?_⟩
  · cases v with
    | false =>
      show versionFromTag (Except.ok (String.mk ((a :: as) ++ '.' :: (d2 ++ '.' :: d3)))) = _
      rw [versionFromTag]
      have hstrip : pyStrip (String.mk ((a :: as) ++ '.' :: (d2 ++ '.' :: d3))).toList =
          (a :: as) ++ '.' :: (d2 ++ '.' :: d3) := pyStrip_eq_self hbody
      rw [hstrip]
      show (match tagGroup1 ((a :: as) ++ '.' :: (d2 ++ '.' :: d3)) with
        | some g => String.mk g
        | none => "0.0.0") = _
      rw [show (a :: as) ++ '.' :: (d2 ++ '.' :: d3) = a :: (as ++ '.' :: (d2 ++ '.' :: d3))
        from rfl]
      rw [tagGroup1, if_neg hav]
      rw [show a :: (as ++ '.' :: (d2 ++ '.' :: d3)) = (a :: as) ++ '.' :: (d2 ++ '.' :: d3)
        from rfl]
      rw [hcore]
    | true =>
      show versionFromTag (Except.ok (String.mk ('v' :: ((a :: as) ++ '.' :: (d2 ++ '.' :: d3))))) = _
      rw [versionFromTag]
      have hstrip : pyStrip (String.mk ('v' :: ((a :: as) ++ '.' :: (d2 ++ '.' :: d3)))).toList =
          'v' :: ((a :: as) ++ '.' :: (d2 ++ '.' :: d3)) := by
        apply pyStrip_eq_self
        intro c hc
        rcases List.mem_cons.mp hc with rfl | hc
        · decide
        · exact hbody c hc
      rw [hstrip]
      show (match tagGroup1 ('v' :: ((a :: as) ++ '.' :: (d2 ++ '.' :: d3))) with
        | some g => String.mk g
        | none => "0.0.0") = _
      rw [tagGroup1, if_pos rfl, hcore]
  · show ((a :: as) ++ '.' :: (d2 ++ '.' :: d3)).head? ≠ some 'v'
    rw [show (a :: as) ++ '.' :: (d2 ++ '.' :: d3) = a :: (as ++ '.' :: (d2 ++ '.' :: d3))
      from rfl]
    rw [List.head?_cons]
    intro hc
    injection hc with hc
    exact hav hc

/-- Witness for C8 at the tags `v1.2.3` and `1.2.3`. -/
theorem versionFromTag_strips_v_witness :
    versionFromTag (Except.ok "v10.2.3") = "10.2.3" := by
  have h := (versionFromTag_strips_v ['1', '0'] ['2'] ['3'] true
    (by decide) (by decide) (by decide) (by decide) (by decide) (by decide)).1
  exact h

/-! ### `generate`: propagating the parsed version into the toolchain -/

/-- A value stored in `tc.variables`: the major/minor/patch entries are
Python ints, the commit and clean entries are Python strings. -/
inductive TCValue where
  | intV (n : Nat)
  | strV (s : String)
deriving DecidableEq, Repr

/-- Python's `str(b).lower()` for a boolean `b`. -/
def pyBoolStrLower (b : Bool) : String := if b then "true" else "false"

/-- `KhepriEngineConan.generate`, projected onto the toolchain variables
it sets: when `_parse_version` returns a record, the five
`KHEPRI_VERSION_*` variables are assigned from it (in source order);
otherwise none of them is set. -/
def generate (version : String) : List (String × TCValue) :=
  match _parse_version version with
  | none => []
  | some vi =>
    [("KHEPRI_VERSION_MAJOR", TCValue.intV vi.major),
     ("KHEPRI_VERSION_MINOR", TCValue.intV vi.minor),
     ("KHEPRI_VERSION_PATCH", TCValue.intV vi.patch),
     ("KHEPRI_VERSION_COMMIT", TCValue.strV vi.commit),
     ("KHEPRI_VERSION_CLEAN", TCValue.strV (pyBoolStrLower vi.clean))]

/-- C6: `generate` sets the five `KHEPRI_VERSION_*` toolchain variables
if and only if `_parse_version` returns a record for the version string;
when it returns no record, none of the variables is set. -/
theorem generate_sets_iff (v : String) :
    (∀ vi, _parse_version v = some vi →
      (generate v).map Prod.fst =
        ["KHEPRI_VERSION_MAJOR", "KHEPRI_VERSION_MINOR", "KHEPRI_VERSION_PATCH",
         "KHEPRI_VERSION_COMMIT", "KHEPRI_VERSION_CLEAN"]) ∧
    (_parse_version v = none → generate v = []) := by
  constructor
  · intro vi hvi
    simp [generate, hvi]
  · intro hnone
    simp [generate, hnone]

/-- Witness for C6 at a parsing and a non-parsing version string. -/
theorem generate_sets_iff_witness :
    (generate "1.2.3+ab").map Prod.fst =
      ["KHEPRI_VERSION_MAJOR", "KHEPRI_VERSION_MINOR", "KHEPRI_VERSION_PATCH",
       "KHEPRI_VERSION_COMMIT", "KHEPRI_VERSION_CLEAN"] ∧
    generate "0.0.0" = [] :=
  ⟨(generate_sets_iff "1.2.3+ab").1
      { major := 1, minor := 2, patch := 3, commit := "ab", clean := true } (by decide),
   (generate_sets_iff "0.0.0").2 (by decide)⟩

/-- C10: the cleanliness indication is forwarded with inverted polarity
and as a lowercase string: for every well-formed version string,
`KHEPRI_VERSION_CLEAN` is the string `"true"` when the `.dirty` suffix
is absent and `"false"` when it is present. -/
theorem generate_clean_polarity (d1 d2 d3 hx : List Char) (dirty : Bool)
    (h1 : d1 ≠ []) (hd1 : ∀ c ∈ d1, isPyDigit c = true)
    (h2 : d2 ≠ []) (hd2 : ∀ c ∈ d2, isPyDigit c = true)
    (h3 : d3 ≠ []) (hd3 : ∀ c ∈ d3, isPyDigit c = true)
    (hh : hx ≠ []) (hhx : ∀ c ∈ hx, isPyHex c = true) :
    (generate (String.mk
        (d1 ++ '.' :: (d2 ++ '.' :: (d3 ++ '+' :: (hx ++ (if dirty then dirtyChars else []))))))
      ).lookup "KHEPRI_VERSION_CLEAN" =
      some (TCValue.strV (if dirty then "false" else "true")) := by
  have hp : _parse_version (String.mk
      (d1 ++ '.' :: (d2 ++ '.' :: (d3 ++ '+' :: (hx ++ (if dirty then dirtyChars else [])))))) =
      some { major := digitsToNat d1, minor := digitsToNat d2, patch := digitsToNat d3,
             commit := String.mk hx, clean := !dirty } :=
    matchVersionCore_wellformed d1 d2 d3 hx dirty h1 hd1 h2 hd2 h3 hd3 hh hhx
  simp only [generate, hp]
  cases dirty <;> rfl

/-- Witness for C10 at a dirty version string. -/
theorem generate_clean_polarity_witness :
    (generate "1.2.3+ab.dirty").lookup "KHEPRI_VERSION_CLEAN" =
      some (TCValue.strV "false") := by
  have h := generate_clean_polarity ['1'] ['2'] ['3'] ['a', 'b'] true
    (by decide) (by decide) (by decide) (by decide)
    (by decide) (by decide) (by decide) (by decide)
  exact h

/-! ### `build` and `package`: the driver steps -/

/-- The CMake operations a recipe step can invoke. -/
inductive CMakeStep where
  | configure
  | build
  | test
  | install
deriving DecidableEq, Repr

/-- The sequence of CMake operations invoked by
`KhepriEngineConan.build`, in source order. -/
def build : List CMakeStep := [CMakeStep.configure, CMakeStep.build, CMakeStep.test]

/-- The sequence of CMake operations invoked by
`KhepriEngineConan.package`, in source order. -/
def package : List CMakeStep := [CMakeStep.install]

/-- C7: the build step invokes configure, build and test exactly once
each, in that order, and install is invoked only in the package step,
never during build. -/
theorem build_package_steps :
    build.count CMakeStep.configure = 1 ∧ build.count CMakeStep.build = 1 ∧
    build.count CMakeStep.test = 1 ∧
    build = [CMakeStep.configure, CMakeStep.build, CMakeStep.test] ∧
    build.count CMakeStep.install = 0 ∧
    package = [CMakeStep.install] := by decide

/-! ### The Collada export utility -/

/-- The observable outcome of a run of `ExportCollada.py`: the process
exit status, the message written to the error stream (if any), and the
file paths passed to `bpy.ops.wm.collada_export`, in order. -/
structure ExportOutcome where
  exitCode : Nat
  errMessage : Option String
  exportCalls : List String
deriving DecidableEq, Repr

/-- The fixed error message of the export utility. -/
def missingPathMsg : String := "export.py: error: missing output path argument"

/-- The module body of `ExportCollada.py`: look up the first `--` in the
argument list (`list.index` raises `ValueError` when absent), read the
following argument (`IndexError` when out of range); on either
exception print the fixed message to stderr and exit with status 1;
otherwise call the Collada export with that path and finish with
status 0. -/
def exportCollada (argv : List String) : ExportOutcome :=
  match argv.findIdx? (fun a => a == "--") with
  | none => ⟨1, some missingPathMsg, []⟩
  | some i =>
    match argv[i + 1]? with
    | none => ⟨1, some missingPathMsg, []⟩
    | some p => ⟨0, none, [p]⟩

example : exportCollada ["blender", "--", "out.dae"] = ⟨0, none, ["out.dae"]⟩ := by decide
example : exportCollada ["blender", "--"] = ⟨1, some missingPathMsg, []⟩ := by decide
example : exportCollada ["blender"] = ⟨1, some missingPathMsg, []⟩ := by decide
example : exportCollada ["--", "a", "--", "b"] = ⟨0, none, ["a"]⟩ := by decide

theorem findIdx?_sep (l rest : List String) : ∀ i : Nat, "--" ∉ l →
    (l ++ "--" :: rest).findIdx? (fun a => a == "--") i = some (i + l.length) := by
  induction l with
  | nil => intro i h; simp [List.findIdx?_cons]
  | cons a as ih =>
    intro i h
    have ha : (a == "--") = false := by
      simp only [beq_eq_false_iff_ne, ne_eq]
      intro hc
      exact h (by simp [hc])
    rw [List.cons_append, List.findIdx?_cons, ha]
    simp only [Bool.false_eq_true, if_false]
    rw [ih (i + 1) (fun hc => h (List.mem_cons_of_mem a hc))]
    congr 1
    simp
    omega

theorem findIdx?_no_sep (l : List String) : ∀ i : Nat, "--" ∉ l →
    l.findIdx? (fun a => a == "--") i = none := by
  induction l with
  | nil => intro i h; rfl
  | cons a as ih =>
    intro i h
    have ha : (a == "--") = false := by
      simp only [beq_eq_false_iff_ne, ne_eq]
      intro hc
      exact h (by simp [hc])
    rw [List.findIdx?_cons, ha]
    simp only [Bool.false_eq_true, if_false]
    exact ih (i + 1) (fun hc => h (List.mem_cons_of_mem a hc))

theorem exportCollada_decomp (l : List String) (p : String) (rest : List String)
    (h : "--" ∉ l) : exportCollada (l ++ "--" :: p :: rest) = ⟨0, none, [p]⟩ := by
  have hidx := findIdx?_sep l (p :: rest) 0 h
  have hget : (l ++ "--" :: p :: rest)[l.length + 1]? = some p := by
    rw [List.getElem?_append_right (by omega)]
    have h1 : l.length + 1 - l.length = 1 := by omega
    rw [h1]
    simp
  simp [exportCollada, hidx, hget]

/-- C3: when no argument follows the `--` separator (the token is last,
or absent), the export utility writes the fixed error message to the
error stream and exits with status 1 without calling the export
operation; otherwise it calls the Collada export exactly once, with the
argument following the first `--`, and exits with status 0. -/
theorem exportCollada_spec (argv : List String) :
    (("--" ∉ argv → exportCollada argv = ⟨1, some missingPathMsg, []⟩) ∧
     (∀ l, argv = l ++ ["--"] → "--" ∉ l →
        exportCollada argv = ⟨1, some missingPathMsg, []⟩)) ∧
    (∀ l p rest, argv = l ++ "--" :: p :: rest → "--" ∉ l →
      exportCollada argv = ⟨0, none, [p]⟩) := by
  refine ⟨⟨?_, ?_⟩, ?_⟩
  · intro h
    have hidx := findIdx?_no_sep argv 0 h
    simp [exportCollada, hidx]
  · rintro l rfl h
    have hidx := findIdx?_sep l [] 0 h
    have hget : (l ++ ["--"])[l.length + 1]? = none := by
      apply List.getElem?_eq_none
      simp
    simp [exportCollada, hidx, hget]
  · rintro l p rest rfl h
    exact exportCollada_decomp l p rest h

/-- Witness for C3 at three concrete argument lists. -/
theorem exportCollada_spec_witness :
    exportCollada ["blender", "-P", "script.py"] = ⟨1, some missingPathMsg, []⟩ ∧
    exportCollada ["blender", "--"] = ⟨1, some missingPathMsg, []⟩ ∧
    exportCollada ["blender", "--", "out.dae"] = ⟨0, none, ["out.dae"]⟩ :=
  ⟨(exportCollada_spec ["blender", "-P", "script.py"]).1.1 (by decide),
   (exportCollada_spec ["blender", "--"]).1.2 ["blender"] rfl (by decide),
   (exportCollada_spec ["blender", "--", "out.dae"]).2 ["blender"] "out.dae" [] rfl (by decide)⟩

/-- C9: when `--` occurs more than once, the output path taken is the
argument immediately following the first occurrence; the later
occurrence and everything after it are ignored. -/
theorem exportCollada_first_sep (l1 : List String) (p1 : String) (l2 : List String)
    (p2 : String) (l3 : List String) (h : "--" ∉ l1) :
    exportCollada (l1 ++ "--" :: p1 :: (l2 ++ "--" :: p2 :: l3)) = ⟨0, none, [p1]⟩ :=
  exportCollada_decomp l1 p1 (l2 ++ "--" :: p2 :: l3) h

/-- Witness for C9 at a concrete argument list with two separators. -/
theorem exportCollada_first_sep_witness :
    exportCollada (["a"] ++ "--" :: "out.dae" :: (["b"] ++ "--" :: "other.dae" :: [])) =
      ⟨0, none, ["out.dae"]⟩ :=
  exportCollada_first_sep ["a"] "out.dae" ["b"] "other.dae" [] (by decide)

end Khepri
